import Mathlib

/-!
Verification of the reranker demo HTTP service (`rerank_server_demo.py`).

The service loads a tokenizer and a sequence-classification model at startup,
then serves a single POST endpoint: given a query and a list of documents it
builds query/document pairs, tokenizes them, runs one model forward pass that
yields one logit per pair, wraps each document with its original position and
its score, and returns the list stably sorted by descending score.

The external ML library (tokenizer and model) is abstracted: the tokenizer is a
function from the pair list to an arbitrary type `ι` of tokenized batches, and
the model is a function from `ι` to a list of scores.  Scores are abstracted
over a linearly ordered type `α` standing for the float logits.  Everything
else — pair construction, result construction by `enumerate(zip(...))`, and the
stable descending sort (Python's `sorted(..., key=score, reverse=True)`,
embedded as `List.mergeSort`, which is stable) — is translated directly from
the source.
-/

namespace RerankServer

/-- Request body of the endpoint: `class RerankRequest(BaseModel)`. -/
structure RerankRequest where
  query : String
  documents : List String
deriving DecidableEq, Repr

/-- Nested document object: `class DocumentInfo(BaseModel)`. -/
structure DocumentInfo where
  text : String
deriving DecidableEq, Repr

/-- One entry of the response: `class TestRankResult(BaseModel)` with fields
`index`, `document`, `score`.  The score type is a parameter standing for the
float logits produced by the external model. -/
structure TestRankResult (α : Type) where
  index : Nat
  document : DocumentInfo
  score : α
deriving DecidableEq, Repr

/-- Response body: `class TestFinalResponse(BaseModel)` with a `results` list. -/
structure TestFinalResponse (α : Type) where
  results : List (TestRankResult α)
deriving DecidableEq, Repr

/-- Line 74: `pairs = [[request.query, doc] for doc in request.documents]`. -/
def buildPairs (query : String) (documents : List String) : List (String × String) :=
  documents.map (fun doc => (query, doc))

/-- Lines 89-101: the result-construction loop
`for i, (text, score_val) in enumerate(zip(request.documents, scores)): ...
results.append(TestRankResult(index=i, document=DocumentInfo(text=text), score=score_val))`. -/
def buildResults {α : Type} (documents : List String) (scores : List α) :
    List (TestRankResult α) :=
  ((documents.zip scores).enum).map
    (fun p => { index := p.1, document := { text := p.2.1 }, score := p.2.2 })

/-- The comparison used by line 104,
`sorted(results, key=lambda x: x.score, reverse=True)`: a stable sort keeps `a`
before `b` exactly when `b.score ≤ a.score` (descending order). -/
def scoreDescLe {α : Type} [LinearOrder α] (a b : TestRankResult α) : Bool :=
  decide (b.score ≤ a.score)

/-- The handler body of `rerank_endpoint` (lines 71-109): build pairs, tokenize
them, run the model once, build the positional results, and stably sort them by
descending score.  `tokenizer` and `model` abstract the external ML library. -/
def rerank_endpoint {ι α : Type} [LinearOrder α]
    (tokenizer : List (String × String) → ι) (model : ι → List α)
    (req : RerankRequest) : List (TestRankResult α) :=
  let pairs := buildPairs req.query req.documents
  let inputs := tokenizer pairs
  let scores := model inputs
  let results := buildResults req.documents scores
  results.mergeSort scoreDescLe

/-- The per-process global state shared by all requests: the tokenizer and the
model, both loaded once at startup (lines 48-51). -/
structure ServerState (ι α : Type) where
  tokenizer : List (String × String) → ι
  model : ι → List α

/-- State-passing embedding of one request being handled.  The handler body
(lines 71-109) only reads the module globals `tokenizer`, `model` and `device`
and assigns none of them (inference runs under `torch.no_grad()` on a model put
in `eval()` mode), so the state-passing translation returns the global state
unchanged together with the response dictionary of line 109. -/
def handle_rerank {ι α : Type} [LinearOrder α] (s : ServerState ι α)
    (req : RerankRequest) : ServerState ι α × TestFinalResponse α :=
  (s, { results := rerank_endpoint s.tokenizer s.model req })

/-- Outcome of module startup: either both external loads succeeded and the
FastAPI service is created, or the process printed a failure message and
exited (lines 45-56). -/
inductive StartupOutcome (τ μ : Type) where
  | serviceStarted (tokenizer : τ) (model : μ)
  | exitedWithMessage (msg : String)
deriving DecidableEq

/-- Whether startup left the HTTP service running. -/
def StartupOutcome.serviceRunning {τ μ : Type} : StartupOutcome τ μ → Bool
  | .serviceStarted _ _ => true
  | .exitedWithMessage _ => false

/-- Lines 45-56: `tokenizer = AutoTokenizer.from_pretrained(...)` then
`model = AutoModelForSequenceClassification.from_pretrained(...)` inside a
`try`; any raised error is caught by the `except` block, which prints
`"Model loading failed: ..."` and calls `exit()`.  The two fallible external
loads are embedded as `Except` values. -/
def startup {τ μ : Type} (loadTokenizer : Except String τ)
    (loadModel : Except String μ) : StartupOutcome τ μ :=
  match loadTokenizer with
  | .error e => .exitedWithMessage ("Model loading failed: " ++ e)
  | .ok tok =>
    match loadModel with
    | .error e => .exitedWithMessage ("Model loading failed: " ++ e)
    | .ok m => .serviceStarted tok m

/-! ### Helper lemmas about the comparison and the result-construction loop -/

/-- The descending comparison is transitive. -/
theorem scoreDescLe_trans {α : Type} [LinearOrder α] (a b c : TestRankResult α) :
    scoreDescLe a b → scoreDescLe b c → scoreDescLe a c := by
  simp only [scoreDescLe, decide_eq_true_eq]
  exact fun hab hbc => le_trans hbc hab

/-- The descending comparison is total. -/
theorem scoreDescLe_total {α : Type} [LinearOrder α] (a b : TestRankResult α) :
    scoreDescLe a b || scoreDescLe b a := by
  simp only [scoreDescLe, Bool.or_eq_true, decide_eq_true_eq]
  exact le_total b.score a.score

/-- The loop produces one entry per element of `zip(documents, scores)`. -/
theorem length_buildResults {α : Type} (documents : List String) (scores : List α) :
    (buildResults documents scores).length = min documents.length scores.length := by
  simp [buildResults]

/-- The entry at position `k` of the loop's output pairs position `k`'s
document and score under index `k`. -/
theorem buildResults_getElem {α : Type} {documents : List String} {scores : List α}
    {k : Nat} (hk : k < (buildResults documents scores).length) :
    ∃ (hd : k < documents.length) (hs : k < scores.length),
      (buildResults documents scores).get ⟨k, hk⟩ =
        { index := k, document := { text := documents.get ⟨k, hd⟩ },
          score := scores.get ⟨k, hs⟩ } := by
  have hk' := hk
  rw [length_buildResults] at hk'
  refine ⟨lt_of_lt_of_le hk' (min_le_left _ _), lt_of_lt_of_le hk' (min_le_right _ _), ?_⟩
  simp [buildResults, List.enum_eq_enumFrom, List.getElem_enumFrom, List.getElem_zip]

/-- Every entry of the loop's output carries its own original position: its
`index` is in range and looks up its document text and its score. -/
theorem mem_buildResults {α : Type} {documents : List String} {scores : List α}
    {r : TestRankResult α} (hr : r ∈ buildResults documents scores) :
    ∃ (hd : r.index < documents.length) (hs : r.index < scores.length),
      documents.get ⟨r.index, hd⟩ = r.document.text ∧
      scores.get ⟨r.index, hs⟩ = r.score := by
  obtain ⟨k, hget⟩ := List.mem_iff_get.mp hr
  obtain ⟨hd, hs, hval⟩ := buildResults_getElem k.isLt
  have hr' : r =
      { index := k.1, document := { text := documents.get ⟨k.1, hd⟩ },
        score := scores.get ⟨k.1, hs⟩ } := hget.symm.trans hval
  subst hr'
  exact ⟨hd, hs, rfl, rfl⟩

/-- The indices of the loop's output are exactly the positions of
`zip(documents, scores)`, in order. -/
theorem buildResults_map_index {α : Type} (documents : List String) (scores : List α) :
    (buildResults documents scores).map TestRankResult.index =
      List.range (min documents.length scores.length) := by
  simp only [buildResults, List.map_map, List.enum_eq_enumFrom]
  have : (TestRankResult.index (α := α) ∘ fun p : Nat × (String × α) =>
      { index := p.1, document := { text := p.2.1 }, score := p.2.2 }) = Prod.fst := rfl
  rw [this, List.enumFrom_map_fst, ← List.length_zip, List.range_eq_range']

/-- The loop's output has no duplicate entries, because indices are distinct. -/
theorem buildResults_nodup {α : Type} (documents : List String) (scores : List α) :
    (buildResults documents scores).Nodup := by
  have h : ((buildResults documents scores).map TestRankResult.index).Nodup := by
    rw [buildResults_map_index]
    exact List.nodup_range _
  exact h.of_map

/-- An entry of the loop's output sits at the position its `index` names. -/
theorem buildResults_self_position {α : Type} {documents : List String}
    {scores : List α} {r : TestRankResult α} (hr : r ∈ buildResults documents scores) :
    ∃ (h : r.index < (buildResults documents scores).length),
      (buildResults documents scores).get ⟨r.index, h⟩ = r := by
  obtain ⟨k, hget⟩ := List.mem_iff_get.mp hr
  obtain ⟨hd, hs, hval⟩ := buildResults_getElem k.isLt
  have hr' : r =
      { index := k.1, document := { text := documents.get ⟨k.1, hd⟩ },
        score := scores.get ⟨k.1, hs⟩ } := hget.symm.trans hval
  have hidx : r.index = k.1 := by rw [hr']
  rw [hidx]
  exact ⟨k.isLt, hget⟩

/-- The endpoint returns one entry per element of `zip(documents, scores)`. -/
theorem length_rerank_endpoint {ι α : Type} [LinearOrder α]
    (tokenizer : List (String × String) → ι) (model : ι → List α)
    (req : RerankRequest) :
    (rerank_endpoint tokenizer model req).length =
      min req.documents.length
        (model (tokenizer (buildPairs req.query req.documents))).length := by
  show (List.mergeSort _ scoreDescLe).length = _
  rw [List.length_mergeSort, length_buildResults]

/-- Membership in the endpoint's output is membership in the loop's output:
the sort only permutes entries. -/
theorem mem_rerank_endpoint {ι α : Type} [LinearOrder α]
    {tokenizer : List (String × String) → ι} {model : ι → List α}
    {req : RerankRequest} {r : TestRankResult α} :
    r ∈ rerank_endpoint tokenizer model req ↔
      r ∈ buildResults req.documents
        (model (tokenizer (buildPairs req.query req.documents))) :=
  List.mem_mergeSort

/-! ### Claim theorems -/

/-- C1: For every request to the rerank endpoint, the returned results list is
sorted by descending score: for every pair of consecutive entries, the earlier
entry's score is greater than or equal to the later entry's score. -/
theorem rerank_endpoint_sorted_descending {ι α : Type} [LinearOrder α]
    (tokenizer : List (String × String) → ι) (model : ι → List α)
    (req : RerankRequest) :
    (rerank_endpoint tokenizer model req).Chain' (fun a b => b.score ≤ a.score) := by
  have hp : (List.mergeSort
      (buildResults req.documents (model (tokenizer (buildPairs req.query req.documents))))
      scoreDescLe).Pairwise (fun a b => scoreDescLe a b = true) :=
    List.sorted_mergeSort scoreDescLe_trans scoreDescLe_total _
  have hp' := hp.imp (fun h => by
    simpa only [scoreDescLe, decide_eq_true_eq] using h)
  exact hp'.chain'

/-- C2: For every request to the rerank endpoint, given that the model returns
one score per query/document pair, the number of entries in the returned
results list equals the number of documents in the request. -/
theorem rerank_endpoint_result_count {ι α : Type} [LinearOrder α]
    (tokenizer : List (String × String) → ι) (model : ι → List α)
    (req : RerankRequest)
    (hlen : (model (tokenizer (buildPairs req.query req.documents))).length =
      req.documents.length) :
    (rerank_endpoint tokenizer model req).length = req.documents.length := by
  rw [length_rerank_endpoint, hlen, min_self]

/-- Witness for `rerank_endpoint_result_count`: a request with two documents
against a model producing one score per pair yields two results. -/
theorem rerank_endpoint_result_count_witness :
    (rerank_endpoint (fun ps : List (String × String) => ps)
      (fun ps => ps.map (fun _ => (0 : Int)))
      { query := "q", documents := ["a", "b"] }).length = 2 :=
  rerank_endpoint_result_count _ _ _ (by rfl)

/-- C6: For every request to the rerank endpoint whose documents list is empty,
the returned results list is empty. -/
theorem rerank_endpoint_empty_documents {ι α : Type} [LinearOrder α]
    (tokenizer : List (String × String) → ι) (model : ι → List α)
    (req : RerankRequest) (h : req.documents = []) :
    rerank_endpoint tokenizer model req = [] := by
  show List.mergeSort _ scoreDescLe = _
  simp [buildResults, h]

/-- Witness for `rerank_endpoint_empty_documents` at a concrete empty request. -/
theorem rerank_endpoint_empty_documents_witness :
    rerank_endpoint (fun ps : List (String × String) => ps)
      (fun ps => ps.map (fun _ => (0 : Int)))
      { query := "q", documents := [] } = [] :=
  rerank_endpoint_empty_documents _ _ _ rfl

/-- Concrete evaluation of the endpoint: two documents whose model scores are
already in descending order, so the stable sort leaves the list unchanged. -/
theorem rerank_endpoint_concrete_eval :
    rerank_endpoint (fun ps : List (String × String) => ps)
      (fun _ => [(5 : Int), 3]) { query := "q", documents := ["a", "b"] } =
      [{ index := 0, document := { text := "a" }, score := 5 },
       { index := 1, document := { text := "b" }, score := 3 }] := by
  have hpair : (buildResults ["a", "b"] [(5 : Int), 3]).Pairwise
      (fun a b => scoreDescLe a b = true) := by decide
  show List.mergeSort _ scoreDescLe = _
  rw [List.mergeSort_of_sorted hpair]
  decide

/-- C3: For every request to the rerank endpoint, each returned result's index
equals the zero-based position its document occupied in the request's documents
list: every entry's index is in range and looks up that entry's document text,
and (given one model score per document) the returned indices are exactly the
original positions `0..n-1`. -/
theorem rerank_endpoint_index_original_position {ι α : Type} [LinearOrder α]
    (tokenizer : List (String × String) → ι) (model : ι → List α)
    (req : RerankRequest)
    (hlen : (model (tokenizer (buildPairs req.query req.documents))).length =
      req.documents.length) :
    ((rerank_endpoint tokenizer model req).map TestRankResult.index).Perm
      (List.range req.documents.length) ∧
    ∀ r ∈ rerank_endpoint tokenizer model req,
      ∃ (h : r.index < req.documents.length),
        req.documents.get ⟨r.index, h⟩ = r.document.text := by
  constructor
  · have hperm :
        (rerank_endpoint tokenizer model req).Perm
          (buildResults req.documents
            (model (tokenizer (buildPairs req.query req.documents)))) :=
      List.mergeSort_perm _ _
    have hmap := hperm.map TestRankResult.index
    rw [buildResults_map_index, hlen, min_self] at hmap
    exact hmap
  · intro r hr
    obtain ⟨hd, hs, ht, _⟩ := mem_buildResults (mem_rerank_endpoint.mp hr)
    exact ⟨hd, ht⟩

/-- Witness for `rerank_endpoint_index_original_position` on a concrete
two-document request. -/
theorem rerank_endpoint_index_original_position_witness :
    ((rerank_endpoint (fun ps : List (String × String) => ps)
        (fun _ => [(5 : Int), 3]) { query := "q", documents := ["a", "b"] }).map
      TestRankResult.index).Perm (List.range 2) ∧
    ∀ r ∈ rerank_endpoint (fun ps : List (String × String) => ps)
        (fun _ => [(5 : Int), 3]) { query := "q", documents := ["a", "b"] },
      ∃ (h : r.index < (["a", "b"] : List String).length),
        (["a", "b"] : List String).get ⟨r.index, h⟩ = r.document.text :=
  rerank_endpoint_index_original_position _ _ _ (by rfl)

/-- C4: For every request to the rerank endpoint and every entry of the result
list, the entry's `document.text` equals the document at position `index` of
the request's documents list. -/
theorem rerank_endpoint_document_text_at_index {ι α : Type} [LinearOrder α]
    (tokenizer : List (String × String) → ι) (model : ι → List α)
    (req : RerankRequest) :
    ∀ r ∈ rerank_endpoint tokenizer model req,
      ∃ (h : r.index < req.documents.length),
        req.documents.get ⟨r.index, h⟩ = r.document.text := by
  intro r hr
  obtain ⟨hd, hs, ht, _⟩ := mem_buildResults (mem_rerank_endpoint.mp hr)
  exact ⟨hd, ht⟩

/-- Witness for `rerank_endpoint_document_text_at_index`: the first returned
entry of a concrete request indeed points back at its document. -/
theorem rerank_endpoint_document_text_at_index_witness :
    ∃ (h : (0 : Nat) < (["a", "b"] : List String).length),
      (["a", "b"] : List String).get ⟨0, h⟩ = "a" :=
  rerank_endpoint_document_text_at_index _ _ _
    { index := 0, document := { text := "a" }, score := (5 : Int) }
    (by rw [rerank_endpoint_concrete_eval]; decide)

/-- C5: Scores are assigned to documents by position: pair `i` of the model
input is `(query, documents[i])`, and the returned entry whose index is `i`
carries the `i`-th score of the model's single forward pass over those pairs. -/
theorem rerank_endpoint_scores_by_pair_position {ι α : Type} [LinearOrder α]
    (tokenizer : List (String × String) → ι) (model : ι → List α)
    (req : RerankRequest) :
    (∀ i (h : i < req.documents.length),
      ∃ (hp : i < (buildPairs req.query req.documents).length),
        (buildPairs req.query req.documents).get ⟨i, hp⟩ =
          (req.query, req.documents.get ⟨i, h⟩)) ∧
    ∀ r ∈ rerank_endpoint tokenizer model req,
      ∃ (hs : r.index <
          (model (tokenizer (buildPairs req.query req.documents))).length),
        (model (tokenizer (buildPairs req.query req.documents))).get
          ⟨r.index, hs⟩ = r.score := by
  constructor
  · intro i h
    have hp : i < (buildPairs req.query req.documents).length := by
      simpa [buildPairs] using h
    refine ⟨hp, ?_⟩
    simp [buildPairs]
  · intro r hr
    obtain ⟨hd, hs, _, hsc⟩ := mem_buildResults (mem_rerank_endpoint.mp hr)
    exact ⟨hs, hsc⟩

/-- Witness for `rerank_endpoint_scores_by_pair_position` on a concrete
two-document request. -/
theorem rerank_endpoint_scores_by_pair_position_witness :
    (∀ i (h : i < (["a", "b"] : List String).length),
      ∃ (hp : i < (buildPairs "q" ["a", "b"]).length),
        (buildPairs "q" ["a", "b"]).get ⟨i, hp⟩ =
          ("q", (["a", "b"] : List String).get ⟨i, h⟩)) ∧
    ∀ r ∈ rerank_endpoint (fun ps : List (String × String) => ps)
        (fun _ => [(5 : Int), 3]) { query := "q", documents := ["a", "b"] },
      ∃ (hs : r.index < [(5 : Int), 3].length),
        [(5 : Int), 3].get ⟨r.index, hs⟩ = r.score :=
  rerank_endpoint_scores_by_pair_position
    (fun ps : List (String × String) => ps) (fun _ => [(5 : Int), 3])
    { query := "q", documents := ["a", "b"] }

/-- C8: If loading the tokenizer or the model at startup fails, the process
exits after producing a message and the HTTP service is never started. -/
theorem startup_load_failure_exits {τ μ : Type}
    (loadTokenizer : Except String τ) (loadModel : Except String μ)
    (h : loadTokenizer.isOk = false ∨ loadModel.isOk = false) :
    (startup loadTokenizer loadModel).serviceRunning = false ∧
    ∃ msg, startup loadTokenizer loadModel =
      StartupOutcome.exitedWithMessage msg := by
  cases loadTokenizer <;> cases loadModel <;>
    simp_all [startup, StartupOutcome.serviceRunning, Except.isOk, Except.toBool]

/-- Witness for `startup_load_failure_exits`: a failed tokenizer load. -/
theorem startup_load_failure_exits_witness :
    (startup (Except.error "weights not found" : Except String Unit)
        (Except.ok () : Except String Unit)).serviceRunning = false ∧
    ∃ msg, startup (Except.error "weights not found" : Except String Unit)
        (Except.ok () : Except String Unit) =
      StartupOutcome.exitedWithMessage msg :=
  startup_load_failure_exits _ _ (Or.inl rfl)

/-- C9: Handling a request leaves the shared global state (tokenizer and
model) unchanged, so handling one request does not affect the response to
any other request handled afterwards. -/
theorem handle_rerank_preserves_state {ι α : Type} [LinearOrder α]
    (s : ServerState ι α) (r1 r2 : RerankRequest) :
    (handle_rerank s r1).1 = s ∧
    (handle_rerank (handle_rerank s r1).1 r2).2 = (handle_rerank s r2).2 :=
  ⟨rfl, rfl⟩

/-- C10: The endpoint is deterministic in its inputs: two invocations with the
same query and documents list return identical responses, including when the
second invocation runs on the state left by the first. -/
theorem handle_rerank_deterministic {ι α : Type} [LinearOrder α]
    (s : ServerState ι α) (r1 r2 : RerankRequest)
    (hq : r1.query = r2.query) (hd : r1.documents = r2.documents) :
    (handle_rerank s r1).2 = (handle_rerank s r2).2 ∧
    (handle_rerank (handle_rerank s r1).1 r2).2 = (handle_rerank s r2).2 := by
  have h : r1 = r2 := by
    cases r1
    cases r2
    simp_all
  subst h
  exact ⟨rfl, rfl⟩

/-- Witness for `handle_rerank_deterministic` at a concrete state and two
field-equal requests. -/
theorem handle_rerank_deterministic_witness :
    (handle_rerank
        { tokenizer := fun ps : List (String × String) => ps,
          model := fun _ => [(5 : Int), 3] }
        { query := "q", documents := ["a", "b"] }).2 =
      (handle_rerank
        { tokenizer := fun ps : List (String × String) => ps,
          model := fun _ => [(5 : Int), 3] }
        { query := "q", documents := ["a", "b"] }).2 ∧
    (handle_rerank
        (handle_rerank
          { tokenizer := fun ps : List (String × String) => ps,
            model := fun _ => [(5 : Int), 3] }
          { query := "q", documents := ["a", "b"] }).1
        { query := "q", documents := ["a", "b"] }).2 =
      (handle_rerank
        { tokenizer := fun ps : List (String × String) => ps,
          model := fun _ => [(5 : Int), 3] }
        { query := "q", documents := ["a", "b"] }).2 :=
  handle_rerank_deterministic _ _ _ rfl rfl

/-! ### Stability of the descending sort -/

/-- Two entries taken at increasing positions of a list form a sublist. -/
theorem pair_sublist_of_get {β : Type} (l : List β) :
    ∀ (i j : Nat) (hij : i < j) (hj : j < l.length),
      List.Sublist [l.get ⟨i, Nat.lt_trans hij hj⟩, l.get ⟨j, hj⟩] l := by
  induction l with
  | nil =>
    intro i j hij hj
    exact absurd hj (by simp)
  | cons a t ih =>
    intro i j hij hj
    cases i with
    | zero =>
      cases j with
      | zero => exact absurd hij (by omega)
      | succ j' =>
        have hj' : j' < t.length := Nat.lt_of_succ_lt_succ hj
        exact (List.singleton_sublist.mpr (t.get_mem j' hj')).cons₂ a
    | succ i' =>
      cases j with
      | zero => exact absurd hij (by omega)
      | succ j' =>
        exact (ih i' j' (Nat.lt_of_succ_lt_succ hij) (Nat.lt_of_succ_lt_succ hj)).cons a

/-- A two-element sublist pins down two increasing positions of the list. -/
theorem pair_sublist_positions {β : Type} {x y : β} :
    ∀ (l : List β), List.Sublist [x, y] l →
      ∃ (p q : Nat) (hp : p < l.length) (hq : q < l.length),
        p < q ∧ l.get ⟨p, hp⟩ = x ∧ l.get ⟨q, hq⟩ = y := by
  intro l
  induction l with
  | nil =>
    intro h
    exact absurd h (by simp)
  | cons a t ih =>
    intro h
    cases h with
    | cons _ h' =>
      obtain ⟨p, q, hp, hq, hpq, hx, hy⟩ := ih h'
      exact ⟨p + 1, q + 1, Nat.succ_lt_succ hp, Nat.succ_lt_succ hq,
        Nat.succ_lt_succ hpq, hx, hy⟩
    | cons₂ _ h' =>
      have hy : y ∈ t := List.singleton_sublist.mp h'
      obtain ⟨⟨q, hq⟩, hget⟩ := List.get_of_mem hy
      exact ⟨0, q + 1, Nat.succ_pos _, Nat.succ_lt_succ hq, Nat.succ_pos _,
        rfl, hget⟩

/-- Stability of the descending sort on an index-tagged list: if every entry
of `L` sits at the position its `index` names and `L` has no duplicates, then
among equal-score entries of the sorted output the original order (by `index`)
is preserved. -/
theorem mergeSort_index_ties_stable {α : Type} [LinearOrder α]
    (L : List (TestRankResult α))
    (hpos : ∀ r ∈ L, ∃ (h : r.index < L.length), L.get ⟨r.index, h⟩ = r)
    (hnodup : L.Nodup)
    (i j : Nat) (hij : i < j) (hj : j < (L.mergeSort scoreDescLe).length)
    (heq : ((L.mergeSort scoreDescLe).get ⟨i, Nat.lt_trans hij hj⟩).score =
      ((L.mergeSort scoreDescLe).get ⟨j, hj⟩).score) :
    ((L.mergeSort scoreDescLe).get ⟨i, Nat.lt_trans hij hj⟩).index <
      ((L.mergeSort scoreDescLe).get ⟨j, hj⟩).index := by
  have hperm : (L.mergeSort scoreDescLe).Perm L := List.mergeSort_perm _ _
  have hnd : (L.mergeSort scoreDescLe).Nodup := hperm.nodup_iff.mpr hnodup
  have hmema : (L.mergeSort scoreDescLe).get ⟨i, Nat.lt_trans hij hj⟩ ∈ L :=
    hperm.subset (List.get_mem _ _ _)
  have hmemb : (L.mergeSort scoreDescLe).get ⟨j, hj⟩ ∈ L :=
    hperm.subset (List.get_mem _ _ _)
  obtain ⟨hpa, hga⟩ := hpos _ hmema
  obtain ⟨hpb, hgb⟩ := hpos _ hmemb
  have hne : ((L.mergeSort scoreDescLe).get ⟨i, Nat.lt_trans hij hj⟩).index ≠
      ((L.mergeSort scoreDescLe).get ⟨j, hj⟩).index := by
    intro hidx
    have hab : (L.mergeSort scoreDescLe).get ⟨i, Nat.lt_trans hij hj⟩ =
        (L.mergeSort scoreDescLe).get ⟨j, hj⟩ := by
      rw [← hga, ← hgb]
      congr 1
      exact Fin.ext hidx
    have hfin := (List.Nodup.get_inj_iff hnd).mp hab
    have : i = j := congrArg Fin.val hfin
    omega
  by_contra hcon
  have hba : ((L.mergeSort scoreDescLe).get ⟨j, hj⟩).index <
      ((L.mergeSort scoreDescLe).get ⟨i, Nat.lt_trans hij hj⟩).index := by
    omega
  have hsubL : List.Sublist [(L.mergeSort scoreDescLe).get ⟨j, hj⟩,
      (L.mergeSort scoreDescLe).get ⟨i, Nat.lt_trans hij hj⟩] L := by
    have hpair := pair_sublist_of_get L _ _ hba hpa
    rw [hgb, hga] at hpair
    exact hpair
  have hdesc : scoreDescLe ((L.mergeSort scoreDescLe).get ⟨j, hj⟩)
      ((L.mergeSort scoreDescLe).get ⟨i, Nat.lt_trans hij hj⟩) = true := by
    simp only [scoreDescLe, decide_eq_true_eq]
    exact le_of_eq heq
  have hsub : List.Sublist [(L.mergeSort scoreDescLe).get ⟨j, hj⟩,
      (L.mergeSort scoreDescLe).get ⟨i, Nat.lt_trans hij hj⟩]
        (L.mergeSort scoreDescLe) :=
    List.pair_sublist_mergeSort scoreDescLe_trans scoreDescLe_total hdesc hsubL
  obtain ⟨p, q, hp, hq, hpq, hgp, hgq⟩ := pair_sublist_positions _ hsub
  have hpj : p = j :=
    congrArg Fin.val ((List.Nodup.get_inj_iff hnd).mp hgp)
  have hqi : q = i :=
    congrArg Fin.val ((List.Nodup.get_inj_iff hnd).mp hgq)
  omega

/-- C7: For every request to the rerank endpoint, tie order is stable: if the
entries at positions `i < j` of the returned list have equal scores, the
earlier entry has the smaller original index. -/
theorem rerank_endpoint_ties_stable {ι α : Type} [LinearOrder α]
    (tokenizer : List (String × String) → ι) (model : ι → List α)
    (req : RerankRequest) (i j : Nat) (hij : i < j)
    (hj : j < (rerank_endpoint tokenizer model req).length)
    (heq : ((rerank_endpoint tokenizer model req).get
        ⟨i, Nat.lt_trans hij hj⟩).score =
      ((rerank_endpoint tokenizer model req).get ⟨j, hj⟩).score) :
    ((rerank_endpoint tokenizer model req).get
        ⟨i, Nat.lt_trans hij hj⟩).index <
      ((rerank_endpoint tokenizer model req).get ⟨j, hj⟩).index :=
  mergeSort_index_ties_stable
    (buildResults req.documents (model (tokenizer (buildPairs req.query req.documents))))
    (fun _ hr => buildResults_self_position hr)
    (buildResults_nodup _ _) i j hij hj heq

/-- Concrete evaluation of the endpoint on a two-document request whose model
scores tie: the stable sort keeps the original order. -/
theorem rerank_endpoint_tie_eval :
    rerank_endpoint (fun ps : List (String × String) => ps)
      (fun _ => [(5 : Int), 5]) { query := "q", documents := ["a", "b"] } =
      [{ index := 0, document := { text := "a" }, score := 5 },
       { index := 1, document := { text := "b" }, score := 5 }] := by
  have hpair : (buildResults ["a", "b"] [(5 : Int), 5]).Pairwise
      (fun a b => scoreDescLe a b = true) := by decide
  show List.mergeSort _ scoreDescLe = _
  rw [List.mergeSort_of_sorted hpair]
  decide

/-- Witness for `rerank_endpoint_ties_stable`: on a concrete request whose two
documents tie, the earlier returned entry has the smaller index. -/
theorem rerank_endpoint_ties_stable_witness :
    ((rerank_endpoint (fun ps : List (String × String) => ps)
        (fun _ => [(5 : Int), 5]) { query := "q", documents := ["a", "b"] }).get
      ⟨0, by rw [rerank_endpoint_tie_eval]; decide⟩).index <
    ((rerank_endpoint (fun ps : List (String × String) => ps)
        (fun _ => [(5 : Int), 5]) { query := "q", documents := ["a", "b"] }).get
      ⟨1, by rw [rerank_endpoint_tie_eval]; decide⟩).index :=
  rerank_endpoint_ties_stable _ _ _ 0 1 (by decide)
    (by rw [rerank_endpoint_tie_eval]; decide)
    (by
      rw [List.get_of_eq rerank_endpoint_tie_eval,
        List.get_of_eq rerank_endpoint_tie_eval]
      rfl)

end RerankServer
